import Mathlib

/-!
Verification development for the poker-epoll engine: a shallow embedding of
the hand state machine (`src/engine/src/table.cc`), the session/router layer
(`src/engine/src/server.cc`), the deck (`src/src/deck.h`) and the player
manager (`src/src/player_manager.cc`), together with theorems settling the
specification claims about them.

Modelling conventions:
* machine integers (chips, player and table ids, array indices) are `Nat`;
  no arithmetic in the claims below can overflow 64 bits in a way that
  changes the stated properties, and clamping in the source prevents
  unsigned underflow on the paths we reason about;
* `std::unordered_map` is modelled as an association list kept in insertion
  order; every claim below is either insensitive to iteration order
  (sums, bulk updates) or, where order is observable (the hole-card event
  order of `handle_new_hand`), the container lives in the engine's
  `table.h`, which is not part of the published sources, and the order is
  modelled from the spec (dealing order);
* `std::expected` is `Except`;
* the RNG handed to `Deck::shuffle` is modelled by the permutation it
  produces, carried as an explicit argument;
* the externally provided seven-card evaluator `rank_best_of_seven`
  (out of scope per the spec) is a function parameter `rank7`.
-/

set_option maxRecDepth 4000

namespace PokerEpoll

def kMaxPlayers : Nat := 10
def kBuyIn : Nat := 1000
def kBigBlind : Nat := 10
def kSmallBlind : Nat := 5
def kDeckSize : Nat := 52
def kHoleSize : Nat := 2
def kFlopSize : Nat := 3
def kBoardSize : Nat := 5

/-- Card as in `cards.h`: a rank (0..12) and a suit (0..3). -/
structure Card where
  rank : Nat
  suit : Nat
deriving DecidableEq, Repr

/-- Initial deck order from `deck.h` (`kCardIdMap`): `out[s * 13 + r] = Card{r, s}`. -/
def kCardIdMap : List Card :=
  (List.range kDeckSize).map (fun i => Card.mk (i % 13) (i / 13))

/-- Deck from `deck.h`: the 52-card array plus the deal cursor `next`. -/
structure Deck where
  cards : List Card := kCardIdMap
  next : Nat := 0
deriving DecidableEq, Repr

namespace Deck

inductive DealError where
  | invalid_amount
  | out_of_cards
deriving DecidableEq, Repr

/-- Deck.deal from `deck.h`: fail with `out_of_cards` when the cursor is at the
end, with `invalid_amount` when fewer than `n` cards remain, else return the
`n` cards at the cursor and advance it. -/
def deal (d : Deck) (n : Nat) : Except DealError (List Card × Deck) :=
  if d.next = kDeckSize then .error .out_of_cards
  else if d.next + n > kDeckSize then .error .invalid_amount
  else .ok ((d.cards.drop d.next).take n, { d with next := d.next + n })

def deal_hole (d : Deck) : Except DealError (List Card × Deck) :=
  d.deal kHoleSize

def deal_board (d : Deck) : Except DealError (List Card × Deck) :=
  d.deal kBoardSize

/-- Deck.shuffle permutes the card array with `std::ranges::shuffle` driven by
the RNG and resets the cursor; the permutation the RNG produces is passed in
explicitly. -/
def shuffle (_d : Deck) (perm : List Card) : Deck :=
  { cards := perm, next := 0 }

end Deck

/-! ### Errors (`errors.h`) -/

inductive ServerError where
  | unspecified
  | too_many_clients
  | all_tables_full
  | illegal_action
deriving DecidableEq, Repr

inductive GameError where
  | invalid_action
  | hand_in_play
  | not_enough_players
  | insufficient_funds
  | bet_too_low
  | out_of_turn
  | no_such_player
deriving DecidableEq, Repr

inductive PlayerMgmtError where
  | not_enough_seats
  | invalid_id
  | player_not_found
  | no_players
deriving DecidableEq, Repr

inductive Error where
  | server (e : ServerError)
  | game (e : GameError)
  | mgmt (e : PlayerMgmtError)
deriving DecidableEq, Repr

/-! ### Association-list maps

`std::unordered_map` modelled as an insertion-ordered association list; the
operations mirror `find`, `operator[]`-assignment, `operator[]`-read (which
default-constructs a missing entry) and `erase`. -/

def lookupA {V : Type} (m : List (Nat × V)) (k : Nat) : Option V :=
  match m with
  | [] => none
  | (k1, v) :: rest => if k1 = k then some v else lookupA rest k

/-- Assignment through `operator[]`: update in place when present, append
otherwise. -/
def setA {V : Type} (m : List (Nat × V)) (k : Nat) (v : V) :
    List (Nat × V) :=
  match m with
  | [] => [(k, v)]
  | (k1, v1) :: rest =>
      if k1 = k then (k1, v) :: rest else (k1, v1) :: setA rest k v

/-- Read through `operator[]`: default-construct and insert when absent,
returning the value together with the possibly grown map. -/
def getInsertA {V : Type} (m : List (Nat × V)) (k : Nat) (dflt : V) :
    V × List (Nat × V) :=
  match lookupA m k with
  | some v => (v, m)
  | none => (dflt, m ++ [(k, dflt)])

def eraseA {V : Type} (m : List (Nat × V)) (k : Nat) :
    List (Nat × V) :=
  match m with
  | [] => []
  | (k1, v1) :: rest => if k1 = k then rest else (k1, v1) :: eraseA rest k

/-! ### Player and PlayerManager (`player.cc`, `player_manager.cc`) -/

structure Player where
  id : Nat
  purse : Nat := 0
deriving DecidableEq, Repr

def Player.place_bet (p : Player) (bet : Nat) : Player :=
  { p with purse := p.purse - bet }

def Player.add_chips (p : Player) (chips : Nat) : Player :=
  { p with purse := p.purse + chips }

structure PlayerManager where
  seats : List (Option Player) := List.replicate kMaxPlayers none
  open_seats : List Nat := List.range kMaxPlayers
  index : List (Nat × Nat) := []
  holding : List Nat := []
deriving DecidableEq, Repr

namespace PlayerManager

def init : PlayerManager := {}

def add_player (pm : PlayerManager) (id : Nat) :
    Except PlayerMgmtError PlayerManager :=
  match pm.open_seats with
  | [] => .error .not_enough_seats
  | seat :: rest =>
      .ok { pm with
              open_seats := rest,
              holding := pm.holding ++ [id],
              index := setA pm.index id seat }

/-- Loop of `seat_held_players` over the holding FIFO; only `seats` is
mutated while the loop runs, so the index is passed through unchanged. -/
def seat_go (index : List (Nat × Nat)) (seats : List (Option Player)) :
    List Nat → List (Option Player)
  | [] => seats
  | id :: rest =>
      -- the id was put into `index` by `add_player`, so the lookup succeeds
      seat_go index
        (seats.set ((lookupA index id).getD 0) (some (Player.mk id kBuyIn)))
        rest

/-- PlayerManager.seat_held_players: move each held player into its reserved
seat with a purse of `kBuyIn`, emptying the holding FIFO. -/
def seat_held_players (pm : PlayerManager) : PlayerManager :=
  { pm with holding := [], seats := seat_go pm.index pm.seats pm.holding }

def get_first_player (pm : PlayerManager) : Except PlayerMgmtError Nat :=
  match pm.seats.findSome? (fun s => s.map Player.id) with
  | some id => .ok id
  | none => .error .no_players

/-- PlayerManager.next_player: scan the seat array cyclically starting just
after `p`'s seat; after a full loop of empty seats return `p` itself. -/
def next_player (pm : PlayerManager) (p : Nat) :
    Except PlayerMgmtError Nat :=
  match lookupA pm.index p with
  | none => .error .invalid_id
  | some i =>
      let total := pm.seats.length
      match (List.range total).findSome? (fun j =>
          match pm.seats.getD ((i + 1 + j) % total) none with
          | some q => some q.id
          | none => none) with
      | some q => .ok q
      | none => .ok p

/-- Loop body of `active_cycle_from`; the source loop terminates because
`next_player` walks the at most `seats.size()` occupied seats back around to
`start`, so `seats.length` steps of fuel cover the full cycle. -/
def cycle_go (pm : PlayerManager) (start : Nat) : Nat → Nat → List Nat
  | _, 0 => []
  | cur, fuel + 1 =>
      match next_player pm cur with
      | .error _ => []
      | .ok nxt => if nxt = start then [] else nxt :: cycle_go pm start nxt fuel

def active_cycle_from (pm : PlayerManager) (start : Nat) : List Nat :=
  if (lookupA pm.index start).isNone || pm.seats.isEmpty then []
  else start :: cycle_go pm start start pm.seats.length

/-- Modelled from the spec: the engine's `PlayerManager::num_players` body is
not among the published sources; the spec counts players that are seated or
holding, which is exactly the number of allocated seats
(`kMaxPlayers - open_seats.size()`, as in the published `seated_count`). -/
def num_players (pm : PlayerManager) : Nat :=
  kMaxPlayers - pm.open_seats.length

def is_sat (pm : PlayerManager) (id : Nat) : Bool :=
  match lookupA pm.index id with
  | some i => (pm.seats.getD i none).isSome
  | none => false

/-- PlayerManager.get_chips; the source indexes the seat unconditionally, so
callers guarantee the player is seated and the default is never read. -/
def get_chips (pm : PlayerManager) (id : Nat) : Nat :=
  match lookupA pm.index id with
  | some i =>
      match pm.seats.getD i none with
      | some p => p.purse
      | none => 0
  | none => 0

def modify_seat (pm : PlayerManager) (id : Nat) (f : Player → Player) :
    PlayerManager :=
  match lookupA pm.index id with
  | some i => { pm with seats := pm.seats.set i ((pm.seats.getD i none).map f) }
  | none => pm

def place_bet (pm : PlayerManager) (id : Nat) (bet : Nat) : PlayerManager :=
  modify_seat pm id (fun p => p.place_bet bet)

def award_chips (pm : PlayerManager) (id : Nat) (amount : Nat) : PlayerManager :=
  modify_seat pm id (fun p => p.add_chips amount)

end PlayerManager

/-! ### Events, actions, hand state (engine `table.cc`; the engine's own
`table.h` is not among the published sources, so the `HandState` record
follows the spec's data model, with the maps kept in insertion order) -/

inductive Phase where
  | holding
  | preflop
  | flop
  | turn
  | river
  | showdown
deriving DecidableEq, Repr

inductive PlayerState where
  | active
  | all_in
  | folded
  | left
deriving DecidableEq, Repr

inductive Event where
  | PlayerAdded (who : Nat)
  | PlayerRemoved (who : Nat)
  | HandStarted
  | PhaseAdvanced (next : Phase)
  | DealtHole (who : Nat) (hole : List Card)
  | DealtFlop (flop : List Card)
  | DealtStreet (card : Card)
  | BetPlaced (who : Nat) (amount : Nat)
  | TurnAdvanced (next : Nat)
  | WonPot (who : Nat) (amount : Nat)
deriving DecidableEq, Repr

inductive Action where
  | Fold (id : Nat)
  | Bet (id : Nat) (amount : Nat)
  | Timeout (id : Nat)
deriving DecidableEq, Repr

def Action.actionId : Action → Nat
  | .Fold id => id
  | .Bet id _ => id
  | .Timeout id => id

structure SidePot where
  amount : Nat
  eligible : List Nat
deriving DecidableEq, Repr

structure HandState where
  phase : Phase := .preflop
  button : Nat := 0
  participants : List Nat := []
  player_state : List (Nat × PlayerState) := []
  player_holes : List (Nat × List Card) := []
  table_cards : List Card := []
  active_bets : List (Nat × Nat) := []
  committed : List (Nat × Nat) := []
  previous_bet : Nat := 0
  min_raise : Nat := 0
  turn_queue : List Nat := []
deriving DecidableEq, Repr

structure Table where
  players : PlayerManager := {}
  deck : Deck := {}
  /-- Permutation produced by the table's RNG on the next shuffle. -/
  rng_deck : List Card := kCardIdMap
  button : Nat := 0
  hand_state : Option HandState := none
deriving DecidableEq, Repr

/-- Check `player_state.find(id) != end && ->second == active` as in the
queue-pruning and queue-building loops. -/
def isActiveIn (ps : List (Nat × PlayerState)) (id : Nat) : Bool :=
  match lookupA ps id with
  | some .active => true
  | _ => false

/-- Check for `active` or `all_in`, as side-pot eligibility and
`active_players_in_hand` do. -/
def isLiveIn (ps : List (Nat × PlayerState)) (id : Nat) : Bool :=
  match lookupA ps id with
  | some .active => true
  | some .all_in => true
  | _ => false

namespace HandState

/-- Table.prune_turn_queue: pop from the front while the front is not active. -/
def prune_turn_queue (hs : HandState) : HandState :=
  { hs with
      turn_queue := hs.turn_queue.dropWhile (fun id => !isActiveIn hs.player_state id) }

/-- Table.build_turn_queue: clockwise over `participants` from `start`,
keeping only `active` players. -/
def build_turn_queue (hs : HandState) (start : Nat) : List Nat :=
  match hs.participants.indexOf? start with
  | none => []
  | some offset =>
      ((List.range hs.participants.length).map
          (fun i => hs.participants.getD ((offset + i) % hs.participants.length) 0)).filter
        (fun id => isActiveIn hs.player_state id)

/-- Table.first_active_after: first `active` participant strictly after
`start`, scanning one full cycle. -/
def first_active_after (hs : HandState) (start : Nat) : Option Nat :=
  match hs.participants.indexOf? start with
  | none => none
  | some offset =>
      (List.range hs.participants.length).findSome? (fun j =>
        let id := hs.participants.getD ((offset + j + 1) % hs.participants.length) 0
        if isActiveIn hs.player_state id then some id else none)

/-- Table.active_players_in_hand: participants that are `active` or `all_in`. -/
def active_players_in_hand (hs : HandState) : List Nat :=
  hs.participants.filter (fun id => isLiveIn hs.player_state id)

/-- Table.total_committed: sum of the per-hand commitments. -/
def total_committed (hs : HandState) : Nat :=
  (hs.committed.map Prod.snd).sum

end HandState

namespace Table

/-- Table.post_blind from `table.cc`: a player with an empty purse is marked
all-in without posting; otherwise post `min(amount, purse)`, marking all-in
when the post exhausts the purse, and emit `BetPlaced`. -/
def post_blind (pm : PlayerManager) (hs : HandState) (id : Nat)
    (amount : Nat) (events : List Event) :
    PlayerManager × HandState × List Event :=
  let chips := pm.get_chips id
  if chips = 0 then
    (pm, { hs with player_state := setA hs.player_state id .all_in }, events)
  else
    let blind := min amount chips
    let hs :=
      if chips ≤ blind then
        { hs with player_state := setA hs.player_state id .all_in }
      else hs
    let pm := pm.place_bet id blind
    let (curC, committed0) := getInsertA hs.committed id 0
    let (curB, bets0) := getInsertA hs.active_bets id 0
    let hs :=
      { hs with
          committed := setA committed0 id (curC + blind),
          active_bets := setA bets0 id (curB + blind),
          previous_bet := max hs.previous_bet (curB + blind) }
    (pm, hs, events ++ [.BetPlaced id blind])

/-- Table.handle(const Bet&): clamp to the purse (marking all-in), validate
against `previous_bet` and `min_raise`, then commit the bet, requeueing every
other active player on a full raise. -/
def handle_bet (pm : PlayerManager) (hs : HandState) (id : Nat)
    (amount : Nat) :
    PlayerManager × HandState × Except GameError (List Event) :=
  let previous := hs.previous_bet
  let (current, bets0) := getInsertA hs.active_bets id 0
  let chips := pm.get_chips id
  let clamped := chips ≤ amount ∧ 0 < amount
  let bet := if chips ≤ amount ∧ 0 < amount then chips else amount
  let ps1 :=
    if chips ≤ amount ∧ 0 < amount then setA hs.player_state id .all_in
    else hs.player_state
  let hs1 := { hs with active_bets := bets0, player_state := ps1 }
  let total := current + bet
  if bet = 0 ∧ current < previous then
    (pm, hs1, .error .bet_too_low)
  else if 0 < bet ∧ total < previous ∧ ¬clamped then
    (pm, hs1, .error .bet_too_low)
  else if 0 < bet ∧ previous < total ∧ total - previous < hs.min_raise ∧ ¬clamped then
    (pm, hs1, .error .bet_too_low)
  else
    let is_raise := 0 < bet ∧ previous < total ∧ hs.min_raise ≤ total - previous
    let pm1 := pm.place_bet id bet
    let (curC, committed0) := getInsertA hs1.committed id 0
    let hs2 :=
      { hs1 with
          turn_queue := hs1.turn_queue.tail,
          committed := setA committed0 id (curC + bet),
          previous_bet := max previous total,
          active_bets := setA hs1.active_bets id total }
    let hs3 :=
      if is_raise then
        { hs2 with
            min_raise := total - previous,
            turn_queue :=
              (pm1.active_cycle_from id).filter
                (fun x => x ≠ id ∧ isActiveIn hs2.player_state x) }
      else hs2
    (pm1, hs3, .ok [.BetPlaced id bet])

/-- Table.handle(const Fold&): pop the actor, mark folded, erase the street
bet; no event. -/
def handle_fold (pm : PlayerManager) (hs : HandState) (id : Nat) :
    PlayerManager × HandState × Except GameError (List Event) :=
  (pm,
   { hs with
       turn_queue := hs.turn_queue.tail,
       player_state := setA hs.player_state id .folded,
       active_bets := eraseA hs.active_bets id },
   .ok [])

/-- Table.handle(const Timeout&): fold when facing a bet, otherwise check.
The street-bet read goes through `operator[]`, which default-inserts. -/
def handle_timeout (pm : PlayerManager) (hs : HandState) (id : Nat) :
    PlayerManager × HandState × Except GameError (List Event) :=
  let (cur, bets0) := getInsertA hs.active_bets id 0
  let hs1 := { hs with active_bets := bets0 }
  if cur < hs1.previous_bet then handle_fold pm hs1 id
  else handle_bet pm hs1 id 0

def run_handler (pm : PlayerManager) (hs : HandState) :
    Action → PlayerManager × HandState × Except GameError (List Event)
  | .Bet id amount => handle_bet pm hs id amount
  | .Fold id => handle_fold pm hs id
  | .Timeout id => handle_timeout pm hs id

/-- Board-reveal event for a freshly entered street. -/
def deal_event_for (next : Phase) (table_cards : List Card) : List Event :=
  if next = .flop then [.DealtFlop (table_cards.take kFlopSize)]
  else if next = .turn then [.DealtStreet (table_cards.getD kFlopSize (Card.mk 0 0))]
  else if next = .river then [.DealtStreet (table_cards.getD (kFlopSize + 1) (Card.mk 0 0))]
  else []

/-- Table.handle_new_street: advance the phase one street, emit the phase and
deal events, zero the street bets, reset `previous_bet` and `min_raise`, and
rebuild the turn queue from the first active player after the button. -/
def handle_new_street (hs : HandState) :
    HandState × Except GameError (List Event) :=
  let next? : Option Phase :=
    match hs.phase with
    | .preflop => some .flop
    | .flop => some .turn
    | .turn => some .river
    | _ => none
  match next? with
  | none => (hs, .error .invalid_action)
  | some next =>
      let hs1 :=
        { hs with
            phase := next,
            active_bets := hs.active_bets.map
              (fun (e : Nat × Nat) => (e.1, (0 : Nat))),
            previous_bet := 0,
            min_raise := kBigBlind }
      let hs2 :=
        match hs1.first_active_after hs1.button with
        | some start => { hs1 with turn_queue := hs1.build_turn_queue start }
        | none => { hs1 with turn_queue := [] }
      let hs3 := hs2.prune_turn_queue
      let turnEvents :=
        if hs3.turn_queue.isEmpty then []
        else [Event.TurnAdvanced (hs3.turn_queue.headD 0)]
      (hs3, .ok ([Event.PhaseAdvanced next] ++ deal_event_for next hs.table_cards ++ turnEvents))

/-- Loop body of `reveal_remaining_board`; the source loop advances the phase
one step per iteration, so at most three iterations (preflop to river) run,
which the fuel covers. -/
def reveal_go (hs : HandState) (events : List Event) :
    Nat → HandState × List Event
  | 0 => (hs, events)
  | fuel + 1 =>
      if hs.phase = .river then (hs, events)
      else
        let next? : Option Phase :=
          match hs.phase with
          | .preflop => some .flop
          | .flop => some .turn
          | .turn => some .river
          | _ => none
        match next? with
        | none => (hs, events)
        | some next =>
            reveal_go { hs with phase := next }
              (events ++ [Event.PhaseAdvanced next] ++ deal_event_for next hs.table_cards)
              fuel

def reveal_remaining_board (hs : HandState) (events : List Event) :
    HandState × List Event :=
  reveal_go hs events 3

/-- Table.award_chips: credit the purse and emit `WonPot`, unless the amount
is zero. -/
def award_chips (pm : PlayerManager) (id : Nat) (amount : Nat)
    (events : List Event) : PlayerManager × List Event :=
  if amount = 0 then (pm, events)
  else (pm.award_chips id amount, events ++ [.WonPot id amount])

end Table

instance {ε α : Type} [DecidableEq ε] [DecidableEq α] : DecidableEq (Except ε α) :=
  fun x y =>
    match x, y with
    | .ok a, .ok b =>
        if h : a = b then .isTrue (by rw [h]) else .isFalse (by simp [h])
    | .error a, .error b =>
        if h : a = b then .isTrue (by rw [h]) else .isFalse (by simp [h])
    | .ok _, .error _ => .isFalse (by simp)
    | .error _, .ok _ => .isFalse (by simp)

/-! ### Side pots and showdown (`table.cc`) -/

/-- Insertion step for `sortByAmount`. -/
def insertByAmount (x : Nat × Nat) :
    List (Nat × Nat) → List (Nat × Nat)
  | [] => [x]
  | y :: ys => if x.2 ≤ y.2 then x :: y :: ys else y :: insertByAmount x ys

/-- Sorting the contributions as `std::sort` with the less-on-amount
comparator does; the source sort is unstable, so any nondecreasing
reordering is a valid outcome and the claims below do not depend on the
order of equal amounts. -/
def sortByAmount : List (Nat × Nat) → List (Nat × Nat)
  | [] => []
  | x :: xs => insertByAmount x (sortByAmount xs)

/-- Layer loop of `Table::build_side_pots`: peel one contribution level per
iteration, collecting a pot of `(level - previous) * |remaining|` chips
contested by the players still in `remaining` that are active or all-in.
Each iteration of the source loop consumes at least one contribution entry,
so fuel equal to the number of entries covers the whole loop. -/
def build_pots_go (ps : List (Nat × PlayerState)) :
    Nat → List (Nat × Nat) → List Nat → Nat → List SidePot
  | _, [], _, _ => []
  | 0, _ :: _, _, _ => []
  | fuel + 1, (pid, level) :: rest, remaining, previous =>
      let group := (pid, level) :: rest.takeWhile (fun e => e.2 == level)
      let rest1 := rest.dropWhile (fun e => e.2 == level)
      let remaining1 := group.foldl (fun r e => r.erase e.1) remaining
      if previous < level then
        let layer := (level - previous) * remaining.length
        let eligible := remaining.filter (fun id => isLiveIn ps id)
        (if 0 < layer then [SidePot.mk layer eligible] else []) ++
          build_pots_go ps fuel rest1 remaining1 level
      else build_pots_go ps fuel rest1 remaining1 previous

/-- Table.build_side_pots: positive contributions, sorted ascending, peeled
level by level. -/
def HandState.build_side_pots (hs : HandState) : List SidePot :=
  let contributions := sortByAmount (hs.committed.filter (fun e => decide (0 < e.2)))
  if contributions.isEmpty then []
  else
    build_pots_go hs.player_state contributions.length contributions
      (contributions.map Prod.fst) 0

/-- Table.hand_rank: the externally provided `rank_best_of_seven` applied to
the player's two hole cards followed by the five board cards. -/
def HandState.hand_rank (rank7 : List Card → Nat) (hs : HandState)
    (id : Nat) : Nat :=
  rank7 ((lookupA hs.player_holes id).getD [] ++ hs.table_cards)

/-- Winner-selection loop of `Table::distribute_side_pots`: all eligible
players whose rank equals the minimum, in eligibility order. The source
seeds `best` with the maximum uint64, which the emptiness guard makes
unread; the seed value is irrelevant here for the same reason. -/
def select_winners (rank7 : List Card → Nat) (hs : HandState)
    (eligible : List Nat) : List Nat :=
  (eligible.foldl
    (fun (acc : List Nat × Nat) id =>
      let r := hs.hand_rank rank7 id
      if acc.1.isEmpty ∨ r < acc.2 then ([id], r)
      else if r = acc.2 then (acc.1 ++ [id], acc.2)
      else acc)
    ([], 0)).1

/-- Payout loop of `Table::distribute_side_pots`: hand each winner the even
share, topping up by one chip while the remainder lasts, in list order. -/
def award_shares (share : Nat) : Nat → List Nat → List (Nat × Nat)
  | _, [] => []
  | remainder, id :: rest =>
      if 0 < remainder then (id, share + 1) :: award_shares share (remainder - 1) rest
      else (id, share) :: award_shares share remainder rest

/-- Table.distribute_side_pots: per pot, find the tied minimum-rank winners
among the eligible players, order them by `participants`, and split the pot
into integer shares with the odd chips handed out in that order. The
division is by the number of winners found among `participants`; in every
reachable state the winner set is a nonempty subset of `participants`, as in
the source. -/
def Table.distribute_side_pots (rank7 : List Card → Nat) (pm : PlayerManager)
    (hs : HandState) (events : List Event) : PlayerManager × List Event :=
  hs.build_side_pots.foldl
    (fun acc pot =>
      if pot.eligible.isEmpty then acc
      else
        let winners := select_winners rank7 hs pot.eligible
        if winners.isEmpty then acc
        else
          let ordered := hs.participants.filter (fun id => winners.contains id)
          let share := pot.amount / ordered.length
          let remainder := pot.amount % ordered.length
          (award_shares share remainder ordered).foldl
            (fun acc2 e => Table.award_chips acc2.1 e.1 e.2 acc2.2) acc)
    (pm, events)

/-! ### Hand start and action dispatch (`table.cc`) -/

/-- Dereferencing deal used by `Table::deal_cards`; the source dereferences
the `std::expected` unconditionally, which is well-defined there because a
freshly shuffled 52-card deck covers two cards for each of at most ten
participants plus the five-card board. -/
def Deck.deal_hole_unchecked (d : Deck) : List Card × Deck :=
  match d.deal_hole with
  | .ok r => r
  | .error _ => ([], d)

def Deck.deal_board_unchecked (d : Deck) : List Card × Deck :=
  match d.deal_board with
  | .ok r => r
  | .error _ => ([], d)

/-- Table.deal_cards: shuffle, deal two cards to the button and then to each
further participant in clockwise order, then deal the board. The hole map is
built in dealing order; the engine's `table.h` (not among the published
sources) fixes the container, and the spec fixes the observable order to the
dealing order. -/
def Table.deal_cards (rd : List Card) (deck : Deck) (hs : HandState) :
    Deck × HandState :=
  let d0 := deck.shuffle rd
  let (h0, d1) := d0.deal_hole_unchecked
  let (holes, d2) :=
    (hs.participants.drop 1).foldl
      (fun (acc : List (Nat × List Card) × Deck) pid =>
        let (h, d) := acc.2.deal_hole_unchecked
        (setA acc.1 pid h, d))
      (setA [] hs.button h0, d1)
  let (board, d3) := d2.deal_board_unchecked
  (d3, { hs with player_holes := holes, table_cards := board })

/-- Table.handle_new_hand: seat held players, advance the button, build the
participant ring, deal, post blinds and build the first turn queue. The
button-advance dereferences `PlayerManager` results as the source does;
with at least two seated players those calls succeed. -/
def Table.handle_new_hand (rank7 : List Card → Nat) (t : Table) :
    Table × Except GameError (List Event) :=
  if t.players.num_players < 2 then (t, .error .not_enough_players)
  else if t.hand_state.isSome then (t, .error .hand_in_play)
  else
    let pm := t.players.seat_held_players
    let button :=
      if t.button = 0 then
        match pm.get_first_player with
        | .ok b => b
        | .error _ => 0
      else
        match pm.next_player t.button with
        | .ok b => b
        | .error _ => 0
    let participants := pm.active_cycle_from button
    if participants.length < 2 then
      ({ t with players := pm, button := button }, .error .not_enough_players)
    else
      let st0 : HandState :=
        { phase := .preflop,
          button := button,
          participants := participants,
          player_state := participants.map (fun id => (id, PlayerState.active)),
          player_holes := [],
          table_cards := [],
          active_bets := participants.map (fun id => (id, (0 : Nat))),
          committed := participants.map (fun id => (id, (0 : Nat))),
          previous_bet := 0,
          min_raise := kBigBlind,
          turn_queue := [] }
      let (deck1, st1) := Table.deal_cards t.rng_deck t.deck st0
      let events0 : List Event :=
        [Event.HandStarted, Event.PhaseAdvanced .preflop] ++
          st1.player_holes.map (fun e => Event.DealtHole e.1 e.2)
      let (pm2, st2, events1) :=
        if participants.length = 2 then
          let sb := participants.getD 0 0
          let bb := participants.getD 1 0
          let (pmA, stA, evA) := Table.post_blind pm st1 sb kSmallBlind events0
          let (pmB, stB, evB) := Table.post_blind pmA stA bb kBigBlind evA
          (pmB, { stB with turn_queue := stB.build_turn_queue sb }, evB)
        else
          let sb := participants.getD (1 % participants.length) 0
          let bb := participants.getD (2 % participants.length) 0
          let first := participants.getD (3 % participants.length) 0
          let (pmA, stA, evA) := Table.post_blind pm st1 sb kSmallBlind events0
          let (pmB, stB, evB) := Table.post_blind pmA stA bb kBigBlind evA
          (pmB, { stB with turn_queue := stB.build_turn_queue first }, evB)
      let st3 := st2.prune_turn_queue
      if st3.turn_queue.isEmpty then
        let (st4, events2) := Table.reveal_remaining_board st3 events1
        let (pm3, events3) := Table.distribute_side_pots rank7 pm2 st4 events2
        ({ t with players := pm3, deck := deck1, button := button, hand_state := none },
         .ok events3)
      else
        ({ t with players := pm2, deck := deck1, button := button, hand_state := some st3 },
         .ok (events1 ++ [Event.TurnAdvanced (st3.turn_queue.headD 0)]))

/-- Post-action resolution from the tail of `Table::on_action`: prune, settle
a lone survivor, finish the hand when the street closed with nobody active
or on the river, start the next street, or advance the turn. -/
def Table.resolve (rank7 : List Card → Nat) (t : Table) (response : List Event) :
    Table × Except GameError (List Event) :=
  match t.hand_state with
  | none => (t, .ok response)
  | some hs0 =>
      let hs := hs0.prune_turn_queue
      let remaining := hs.active_players_in_hand
      if remaining.length = 1 then
        let (pm1, ev1) :=
          Table.award_chips t.players (remaining.headD 0) hs.total_committed response
        ({ t with players := pm1, hand_state := none }, .ok ev1)
      else if hs.turn_queue.isEmpty then
        if ¬ remaining.any (fun id => isActiveIn hs.player_state id) then
          let (hs1, ev1) := Table.reveal_remaining_board hs response
          let (pm1, ev2) := Table.distribute_side_pots rank7 t.players hs1 ev1
          ({ t with players := pm1, hand_state := none }, .ok ev2)
        else if hs.phase = .river then
          let (pm1, ev1) := Table.distribute_side_pots rank7 t.players hs response
          ({ t with players := pm1, hand_state := none }, .ok ev1)
        else
          let (hs1, adv) := Table.handle_new_street hs
          match adv with
          | .error e => ({ t with hand_state := some hs1 }, .error e)
          | .ok evs => ({ t with hand_state := some hs1 }, .ok (response ++ evs))
      else
        let hs1 := hs.prune_turn_queue
        if hs1.turn_queue.isEmpty then
          ({ t with hand_state := some hs1 }, .ok response)
        else
          ({ t with hand_state := some hs1 },
           .ok (response ++ [Event.TurnAdvanced (hs1.turn_queue.headD 0)]))

/-- Table.on_action: precondition checks in source order (hand in progress,
seated sender, non-empty pruned queue, sender at the front), then the
per-variant handler, then post-action resolution. -/
def Table.on_action (rank7 : List Card → Nat) (t : Table) (a : Action) :
    Table × Except GameError (List Event) :=
  match t.hand_state with
  | none => (t, .error .invalid_action)
  | some hs0 =>
      if ¬ t.players.is_sat a.actionId then (t, .error .no_such_player)
      else
        let hs := hs0.prune_turn_queue
        if hs.turn_queue.isEmpty then
          ({ t with hand_state := some hs }, .error .invalid_action)
        else if a.actionId ≠ hs.turn_queue.headD 0 then
          ({ t with hand_state := some hs }, .error .out_of_turn)
        else
          let r := Table.run_handler t.players hs a
          match r.2.2 with
          | .error e =>
              ({ t with players := r.1, hand_state := some r.2.1 }, .error e)
          | .ok response =>
              Table.resolve rank7
                { t with players := r.1, hand_state := some r.2.1 } response

/-- Table.add_player: delegate to the player manager and emit `PlayerAdded`. -/
def Table.add_player (t : Table) (id : Nat) :
    Except PlayerMgmtError (Table × Event) :=
  match t.players.add_player id with
  | .error e => .error e
  | .ok pm => .ok ({ t with players := pm }, .PlayerAdded id)

def Table.hand_in_progress (t : Table) : Bool :=
  t.hand_state.isSome

def Table.can_start_hand (t : Table) : Bool :=
  !t.hand_in_progress && decide (2 ≤ t.players.num_players)

/-! ### Session / router (`server.cc`) -/

/-- Connection from `server.h`. The outbound byte buffer is abstracted to the
frames it carries: framing prepends a length and serialization is the
codec's fixed bijection (out of scope per the spec), so appending an encoded
`Response` to the byte buffer is modelled as appending its decoded message
list, and an unchanged frame list is an unchanged byte buffer. -/
structure Conn where
  fd : Nat := 0
  player_id : Nat := 0
  table_id : Nat := 0
  out : List (List Event) := []
  is_dead : Bool := true
deriving DecidableEq, Repr

inductive Outbound where
  | event (e : Event)
  | events (es : List Event)
  | err (e : Error)
deriving DecidableEq, Repr

/-- event_visible_to from `server.cc`: `DealtHole` is visible only to its
recipient; every other variant is visible to everyone. -/
def event_visible_to (ev : Event) (c : Conn) : Bool :=
  match ev with
  | .DealtHole who _ => who == c.player_id
  | _ => true

/-- Per-connection effect of the table-broadcast `publish` overload: errors
are dropped; a single event is framed when visible; an event list is
filtered down to the visible events and framed unless nothing remains. -/
def deliver_to (out : Outbound) (c : Conn) : Conn :=
  match out with
  | .err _ => c
  | .event ev =>
      if event_visible_to ev c then { c with out := c.out ++ [[ev]] } else c
  | .events evs =>
      let visible := evs.filter (fun ev => event_visible_to ev c)
      if visible.isEmpty then c else { c with out := c.out ++ [visible] }

structure Server where
  connections : List Conn := []
  tables : List (Nat × Table) := []
  next_player_id : Nat := 1
  next_table_id : Nat := 1
deriving DecidableEq, Repr

def Server.get_table_conns (s : Server) (id : Nat) : List Conn :=
  s.connections.filter (fun c => c.table_id == id)

/-- Server.push_table: publish the outbound value to exactly the connections
whose `table_id` matches; `publish` mutates each gathered connection in
place, which the map expresses. -/
def Server.push_table (s : Server) (id : Nat) (out : Outbound) : Server :=
  { s with
      connections := s.connections.map (fun c =>
        if c.table_id == id then deliver_to out c else c) }

/-- Server.start_hand from `server.cc`. Note the source copies the table out
of the map (`auto table = tables_.at(id);`) and runs `handle_new_hand` on
the copy, so the stored table is left untouched; the embedding mirrors this
by discarding the mutated table. -/
def Server.start_hand (rank7 : List Card → Nat) (s : Server) (id : Nat) :
    Server × Except Error (List Event) :=
  match lookupA s.tables id with
  | none => (s, .error (.server .illegal_action))
  | some table =>
      let r := Table.handle_new_hand rank7 table
      (s,
       match r.2 with
       | .ok evs => .ok evs
       | .error e => .error (.game e))

/-- Modelled from the spec: `Server::maybe_start_hand` has no body among the
published sources. Per the spec it checks that the live table has no hand in
progress and at least two seated-or-holding players, invokes
`handle_new_hand` on it, and returns its events; operating on the live
table means the mutated table is stored back. -/
def Server.maybe_start_hand (rank7 : List Card → Nat) (s : Server) (id : Nat) :
    Server × Option (List Event) :=
  match lookupA s.tables id with
  | none => (s, none)
  | some table =>
      if table.can_start_hand then
        let r := Table.handle_new_hand rank7 table
        ({ s with tables := setA s.tables id r.1 },
         match r.2 with
         | .ok evs => some evs
         | .error _ => none)
      else (s, none)

/-! ### Concrete fixtures used by the scenario theorems -/

/-- Degenerate seven-card evaluator standing in for the external
`rank_best_of_seven` where the rank values do not matter. -/
def rank0 : List Card → Nat := fun _ => 0

/-- Fresh table with players 1 and 2 joined in that order, prior to any hand,
with the RNG permutation `rd`. -/
def headsUpTable (rd : List Card) : Table :=
  let t0 : Table := { rng_deck := rd }
  match t0.add_player 1 with
  | .ok (t1, _) =>
      match t1.add_player 2 with
      | .ok (t2, _) => t2
      | .error _ => t1
  | .error _ => t0

/-- Heads-up table right after `handle_new_hand`: blinds posted, player 1 to
act. -/
def headsUpDealt : Table :=
  (Table.handle_new_hand rank0 (headsUpTable kCardIdMap)).1

/-- The in-progress hand of `headsUpDealt`. -/
def headsUpHS : HandState :=
  headsUpDealt.hand_state.getD {}

/-- Session with the two heads-up players connected and their table stored. -/
def demoServer : Server :=
  { connections :=
      [{ fd := 4, player_id := 1, table_id := 1, out := [], is_dead := false },
       { fd := 5, player_id := 2, table_id := 1, out := [], is_dead := false }],
    tables := [(1, headsUpTable kCardIdMap)],
    next_player_id := 3,
    next_table_id := 2 }

/-! ### C8 — `Deck::deal_hole` boundary behaviour -/

/-- C8 (amended): with at least two cards remaining, `deal_hole` returns the
two cards at the cursor and advances the cursor by two; with exactly one
card remaining it fails with `invalid_amount`; only with zero cards
remaining does it fail with `out_of_cards`. -/
theorem deal_hole_cases (d : Deck) (h : d.next ≤ kDeckSize) :
    (2 ≤ kDeckSize - d.next →
        d.deal_hole = .ok ((d.cards.drop d.next).take 2, { d with next := d.next + 2 })) ∧
    (kDeckSize - d.next = 1 → d.deal_hole = .error .invalid_amount) ∧
    (kDeckSize - d.next = 0 → d.deal_hole = .error .out_of_cards) := by
  refine ⟨fun hc => ?_, fun hc => ?_, fun hc => ?_⟩ <;>
    · simp only [Deck.deal_hole, Deck.deal, kDeckSize, kHoleSize] at *
      split_ifs <;> first | rfl | omega

/-- Witness for `deal_hole_cases` on a fresh deck. -/
theorem deal_hole_cases_witness :
    (Deck.mk kCardIdMap 0).next ≤ kDeckSize ∧
    (Deck.mk kCardIdMap 0).deal_hole =
      .ok (((Deck.mk kCardIdMap 0).cards.drop 0).take 2, Deck.mk kCardIdMap 2) :=
  ⟨by decide, (deal_hole_cases (Deck.mk kCardIdMap 0) (by decide)).1 (by decide)⟩

/-- C8 (counterexample): with one card left (`next = 51`) the failure is
`invalid_amount`, not `out_of_cards` as the claim states. -/
theorem deal_hole_one_card_counterexample :
    (Deck.mk kCardIdMap 51).deal_hole = .error .invalid_amount ∧
    (Deck.mk kCardIdMap 51).deal_hole ≠ .error .out_of_cards := by
  exact ⟨rfl, by decide⟩

/-! ### C1 — `Server::start_hand` works on a copy of the table -/

/-- C1: `start_hand` returns the events of `handle_new_hand` (announcing
player 1 as first actor), but because it copies the table out of the map the
stored table is unchanged, no hand is in progress on it, and the announced
first actor's bet is rejected with `invalid_action`; the spec-modelled
`maybe_start_hand`, operating on the live table, leaves the hand in
progress. -/
theorem start_hand_copy_discards_hand :
    (∃ evs, (Server.start_hand rank0 demoServer 1).2 = .ok evs ∧
        evs.getLast? = some (Event.TurnAdvanced 1)) ∧
    (Server.start_hand rank0 demoServer 1).1 = demoServer ∧
    ((lookupA (Server.start_hand rank0 demoServer 1).1.tables 1).map
        Table.hand_in_progress = some false) ∧
    (Table.on_action rank0 (headsUpTable kCardIdMap) (Action.Bet 1 5)).2 =
      .error .invalid_action ∧
    ((lookupA (Server.maybe_start_hand rank0 demoServer 1).1.tables 1).map
        Table.hand_in_progress = some true) := by
  exact ⟨⟨_, rfl, rfl⟩, rfl, rfl, rfl, rfl⟩

/-! ### C3 — heads-up `handle_new_hand` event sequence -/

/-- C3: on a fresh table with players 1 and 2 added in that order,
`handle_new_hand` succeeds and emits exactly `HandStarted`,
`PhaseAdvanced{preflop}`, the hole deal for player 1 (the button, dealt the
first two cards of the shuffled deck) then for player 2 (the next two),
`BetPlaced{1,5}`, `BetPlaced{2,10}`, and `TurnAdvanced{1}`. -/
theorem handle_new_hand_heads_up_events :
    (Table.handle_new_hand rank0 (headsUpTable kCardIdMap)).2 =
      .ok [Event.HandStarted, Event.PhaseAdvanced .preflop,
           Event.DealtHole 1 (kCardIdMap.take 2),
           Event.DealtHole 2 ((kCardIdMap.drop 2).take 2),
           Event.BetPlaced 1 kSmallBlind, Event.BetPlaced 2 kBigBlind,
           Event.TurnAdvanced 1] := by
  rfl

/-! ### C2 — `push_table` visibility filtering -/

/-- C2: pushing an event list to a table appends, to each connection with a
matching `table_id`, at most one frame holding exactly the events visible to
it; a `DealtHole` is in that filtered frame exactly when the connection
belongs to its recipient, every other event variant always is, and
connections of other tables keep their buffers; pushing an `Error` leaves
the whole session unchanged. -/
theorem push_table_visibility (s : Server) (tid : Nat) (evs : List Event)
    (err : Error) (i : Nat) :
    (Server.push_table s tid (.err err) = s) ∧
    ((Server.push_table s tid (.events evs)).connections[i]? =
      (s.connections[i]?).map (fun c =>
        if c.table_id = tid then
          (let frame := evs.filter (fun ev => event_visible_to ev c)
           if frame.isEmpty then c else { c with out := c.out ++ [frame] })
        else c)) ∧
    (∀ c : Conn, ∀ who hole,
        Event.DealtHole who hole ∈ evs.filter (fun ev => event_visible_to ev c) ↔
          Event.DealtHole who hole ∈ evs ∧ c.player_id = who) ∧
    (∀ c : Conn, ∀ ev ∈ evs, (∀ who hole, ev ≠ Event.DealtHole who hole) →
        ev ∈ evs.filter (fun ev => event_visible_to ev c)) := by
  refine ⟨?_, ?_, ?_, ?_⟩
  · simp [Server.push_table, deliver_to]
  · rw [Server.push_table]
    simp only [List.getElem?_map]
    cases s.connections[i]? with
    | none => rfl
    | some c =>
        by_cases h : c.table_id = tid <;> simp [h, deliver_to]
  · intro c who hole
    simp only [List.mem_filter, event_visible_to, beq_iff_eq, decide_eq_true_eq]
    exact and_congr_right fun _ => eq_comm
  · intro c ev hmem hne
    rw [List.mem_filter]
    refine ⟨hmem, ?_⟩
    cases ev <;> simp [event_visible_to]
    exact absurd rfl (hne _ _)

/-- Witness for `push_table_visibility`: a dropped error and a public event
delivered to a non-recipient connection. -/
theorem push_table_visibility_witness :
    (Server.push_table demoServer 1 (.err (.game .bet_too_low)) = demoServer) ∧
    Event.BetPlaced 1 5 ∈
      ([Event.DealtHole 1 [], Event.BetPlaced 1 5].filter
        (fun ev => event_visible_to ev
          { fd := 5, player_id := 2, table_id := 1, out := [], is_dead := false })) := by
  refine ⟨(push_table_visibility demoServer 1 [] (.game .bet_too_low) 0).1, ?_⟩
  exact (push_table_visibility demoServer 1 [Event.DealtHole 1 [], Event.BetPlaced 1 5]
      (.game .bet_too_low) 0).2.2.2 _ _ (by simp) (by intro who hole; simp)

/-! ### Association-list lemmas shared by the claim proofs -/

theorem lookupA_setA_self {V : Type} (m : List (Nat × V)) (k : Nat)
    (v : V) : lookupA (setA m k v) k = some v := by
  induction m with
  | nil => simp [setA, lookupA]
  | cons e rest ih =>
      by_cases h : e.1 = k <;> simp [setA, lookupA, h, ih]

/-- Reading an existing key through `operator[]` changes nothing. -/
theorem getInsertA_present {V : Type} (m : List (Nat × V)) (k : Nat)
    (dflt v : V) (h : lookupA m k = some v) : getInsertA m k dflt = (v, m) := by
  simp [getInsertA, h]

/-! ### C4 — bet validation in `Table::handle(const Bet&)` -/

/-- C4: the submitted amount is clamped to the purse — marking the player
all-in — exactly when it is positive and at least the purse; the action then
fails with `bet_too_low` exactly when the clamped amount is zero while the
street bet is below `previous_bet`, or it is positive with a new street
total below `previous_bet` without being all-in, or it is positive with a
raise smaller than `min_raise` without being all-in; otherwise it succeeds
emitting `BetPlaced` with the clamped amount. -/
theorem handle_bet_validation (pm : PlayerManager) (hs : HandState)
    (id : Nat) (amount : Nat) :
    (let previous := hs.previous_bet
     let current := (getInsertA hs.active_bets id 0).1
     let purse := pm.get_chips id
     let clamped := if purse ≤ amount ∧ 0 < amount then purse else amount
     let total := current + clamped
     let r := Table.handle_bet pm hs id amount
     ((r.2.2 = .error .bet_too_low) ↔
        ((clamped = 0 ∧ current < previous) ∨
         (0 < clamped ∧ total < previous ∧ ¬(purse ≤ amount ∧ 0 < amount)) ∨
         (0 < clamped ∧ previous < total ∧ total - previous < hs.min_raise ∧
            ¬(purse ≤ amount ∧ 0 < amount)))) ∧
     ((purse ≤ amount ∧ 0 < amount) →
        lookupA r.2.1.player_state id = some .all_in) ∧
     (r.2.2 ≠ .error .bet_too_low → r.2.2 = .ok [Event.BetPlaced id clamped])) := by
  simp only [Table.handle_bet]
  refine ⟨?_, ?_, ?_⟩
  · split_ifs <;> simp_all
    all_goals omega
  · intro hclamp
    split_ifs <;> simp_all [lookupA_setA_self]
  · intro hne
    split_ifs at hne ⊢ <;> simp_all

/-- Witness for `handle_bet_validation`: player 1 facing the big blind bets
3 chips, a raise attempt below the minimum, rejected with `bet_too_low`. -/
theorem handle_bet_validation_witness :
    (Table.handle_bet headsUpDealt.players headsUpHS 1 3).2.2 =
      .error .bet_too_low := by
  refine (handle_bet_validation headsUpDealt.players headsUpHS 1 3).1.mpr ?_
  exact Or.inr (Or.inl (by decide))

/-! ### C5 — Timeout behaves as Fold or as a zero Bet -/

/-- C5: with a hand in progress and a street-bet entry `v` recorded for
`id` (as every current actor has), `on_action(Timeout{id})` returns exactly
the table state and event list of `on_action(Fold{id})` when
`v < previous_bet`, and of `on_action(Bet{id,0})` otherwise. -/
theorem timeout_refines_fold_or_check (rank7 : List Card → Nat) (t : Table)
    (hs : HandState) (id v : Nat)
    (hhs : t.hand_state = some hs)
    (hv : lookupA hs.active_bets id = some v) :
    Table.on_action rank7 t (.Timeout id) =
      (if v < hs.previous_bet then Table.on_action rank7 t (.Fold id)
       else Table.on_action rank7 t (.Bet id 0)) := by
  have hv2 : lookupA (hs.prune_turn_queue).active_bets id = some v := hv
  by_cases hc : v < hs.previous_bet
  · rw [if_pos hc]
    have hrun : Table.run_handler t.players hs.prune_turn_queue (Action.Timeout id) =
        Table.run_handler t.players hs.prune_turn_queue (Action.Fold id) := by
      show Table.handle_timeout t.players hs.prune_turn_queue id =
        Table.handle_fold t.players hs.prune_turn_queue id
      rw [Table.handle_timeout, getInsertA_present _ _ _ _ hv2]
      exact if_pos hc
    simp only [Table.on_action, hhs, Action.actionId, hrun]
  · rw [if_neg hc]
    have hrun : Table.run_handler t.players hs.prune_turn_queue (Action.Timeout id) =
        Table.run_handler t.players hs.prune_turn_queue (Action.Bet id 0) := by
      show Table.handle_timeout t.players hs.prune_turn_queue id =
        Table.handle_bet t.players hs.prune_turn_queue id 0
      rw [Table.handle_timeout, getInsertA_present _ _ _ _ hv2]
      exact if_neg hc
    simp only [Table.on_action, hhs, Action.actionId, hrun]

/-- Witness for `timeout_refines_fold_or_check`: the heads-up small blind
times out facing the big blind and the call behaves as a fold. -/
theorem timeout_refines_witness :
    headsUpDealt.hand_state = some headsUpHS ∧
    lookupA headsUpHS.active_bets 1 = some 5 ∧
    Table.on_action rank0 headsUpDealt (.Timeout 1) =
      (if 5 < headsUpHS.previous_bet then Table.on_action rank0 headsUpDealt (.Fold 1)
       else Table.on_action rank0 headsUpDealt (.Bet 1 0)) :=
  ⟨rfl, rfl, timeout_refines_fold_or_check rank0 headsUpDealt headsUpHS 1 5 rfl rfl⟩

/-! ### C9 — `previous_bet` monotone within a street, reset at the boundary -/

@[simp] theorem prune_previous_bet (x : HandState) :
    x.prune_turn_queue.previous_bet = x.previous_bet := rfl

@[simp] theorem prune_min_raise (x : HandState) :
    x.prune_turn_queue.min_raise = x.min_raise := rfl

@[simp] theorem prune_active_bets (x : HandState) :
    x.prune_turn_queue.active_bets = x.active_bets := rfl

@[simp] theorem prune_player_state (x : HandState) :
    x.prune_turn_queue.player_state = x.player_state := rfl

@[simp] theorem prune_committed (x : HandState) :
    x.prune_turn_queue.committed = x.committed := rfl

@[simp] theorem prune_phase (x : HandState) :
    x.prune_turn_queue.phase = x.phase := rfl

@[simp] theorem prune_participants (x : HandState) :
    x.prune_turn_queue.participants = x.participants := rfl

/-- C9: the bet handler and the blind poster never decrease `previous_bet`
(each update takes a maximum with the old value), and a successful
`handle_new_street` resets `previous_bet` to 0, `min_raise` to `kBigBlind`
and every participant street-bet entry to 0. -/
theorem previous_bet_monotone_and_street_reset (pm : PlayerManager)
    (hs : HandState) (id amount : Nat) (events : List Event) :
    hs.previous_bet ≤ (Table.handle_bet pm hs id amount).2.1.previous_bet ∧
    hs.previous_bet ≤ (Table.post_blind pm hs id amount events).2.1.previous_bet ∧
    (∀ hs1 evs, Table.handle_new_street hs = (hs1, .ok evs) →
        hs1.previous_bet = 0 ∧ hs1.min_raise = kBigBlind ∧
        ∀ e ∈ hs1.active_bets, e.2 = 0) := by
  refine ⟨?_, ?_, ?_⟩
  · rw [Table.handle_bet]
    split
    simp only []
    split_ifs <;> simp_all
  · rw [Table.post_blind]
    simp only []
    split_ifs <;> simp_all [le_sup_left]
  · intro hs1 evs h
    rw [Table.handle_new_street] at h
    cases hph : hs.phase <;> simp only [hph] at h
    case river => simp at h
    case showdown => simp at h
    case holding => simp at h
    all_goals
      split at h
      all_goals
        injection h with h1 h2
        subst h1
        refine ⟨rfl, rfl, ?_⟩
        intro e he
        obtain ⟨x, -, hx⟩ := List.mem_map.mp he
        exact hx ▸ rfl

/-- Witness for `previous_bet_monotone_and_street_reset` on the heads-up
preflop state. -/
theorem previous_bet_monotone_witness :
    (headsUpHS.previous_bet ≤
      (Table.handle_bet headsUpDealt.players headsUpHS 1 20).2.1.previous_bet) ∧
    (headsUpHS.previous_bet ≤
      (Table.post_blind headsUpDealt.players headsUpHS 1 20 []).2.1.previous_bet) ∧
    ((Table.handle_new_street headsUpHS).1.previous_bet = 0 ∧
     (Table.handle_new_street headsUpHS).1.min_raise = kBigBlind ∧
     ∀ e ∈ (Table.handle_new_street headsUpHS).1.active_bets, e.2 = 0) := by
  have h := previous_bet_monotone_and_street_reset headsUpDealt.players headsUpHS 1 20 []
  exact ⟨h.1, h.2.1, h.2.2 _ _ rfl⟩

/-! ### C6 — side-pot amounts sum to the committed total -/

theorem insertByAmount_perm (x : Nat × Nat) (l : List (Nat × Nat)) :
    List.Perm (insertByAmount x l) (x :: l) := by
  induction l with
  | nil => exact List.Perm.refl _
  | cons y ys ih =>
      rw [insertByAmount]
      by_cases h : x.2 ≤ y.2
      · rw [if_pos h]
      · rw [if_neg h]
        exact (ih.cons y).trans (List.Perm.swap x y ys)

theorem insertByAmount_pairwise (x : Nat × Nat) (l : List (Nat × Nat))
    (hl : l.Pairwise (fun a b => a.2 ≤ b.2)) :
    (insertByAmount x l).Pairwise (fun a b => a.2 ≤ b.2) := by
  induction l with
  | nil => simp [insertByAmount]
  | cons y ys ih =>
      obtain ⟨hy, hys⟩ := List.pairwise_cons.mp hl
      rw [insertByAmount]
      by_cases hxy : x.2 ≤ y.2
      · rw [if_pos hxy]
        refine List.Pairwise.cons ?_ hl
        intro z hz
        rcases List.mem_cons.mp hz with rfl | hz
        · exact hxy
        · exact le_trans hxy (hy z hz)
      · rw [if_neg hxy]
        refine List.Pairwise.cons ?_ (ih hys)
        intro z hz
        rcases List.mem_cons.mp ((insertByAmount_perm x ys).mem_iff.mp hz) with rfl | hz3
        · exact Nat.le_of_not_le hxy
        · exact hy z hz3

theorem sortByAmount_perm (l : List (Nat × Nat)) :
    List.Perm (sortByAmount l) l := by
  induction l with
  | nil => exact List.Perm.refl _
  | cons x xs ih =>
      rw [sortByAmount]
      exact (insertByAmount_perm x (sortByAmount xs)).trans (ih.cons x)

theorem sortByAmount_pairwise (l : List (Nat × Nat)) :
    (sortByAmount l).Pairwise (fun a b => a.2 ≤ b.2) := by
  induction l with
  | nil => simp [sortByAmount]
  | cons x xs ih => exact insertByAmount_pairwise x (sortByAmount xs) ih

/-- Erasing, one by one, the first-component prefix of a player list strips
exactly that prefix, as the layer loop of `build_side_pots` does. -/
theorem foldl_erase_prefix (g : List (Nat × Nat)) (r : List Nat) :
    g.foldl (fun acc e => acc.erase e.1) (g.map Prod.fst ++ r) = r := by
  induction g with
  | nil => rfl
  | cons e rest ih =>
      simpa [List.erase_cons_head] using ih

theorem dropWhile_cons_head_false {α : Type} (p : α → Bool) :
    ∀ (l : List α) (x : α) (xs : List α), l.dropWhile p = x :: xs → p x = false := by
  intro l
  induction l with
  | nil => intro x xs h; simp [List.dropWhile] at h
  | cons a as ih =>
      intro x xs h
      by_cases hpa : p a = true
      · rw [List.dropWhile_cons, if_pos hpa] at h
        exact ih x xs h
      · rw [List.dropWhile_cons, if_neg hpa] at h
        injection h with h1 h2
        subst h1
        simpa using hpa

theorem sum_map_snd_const (level : Nat) :
    ∀ (g : List (Nat × Nat)), (∀ e ∈ g, e.2 = level) →
      (g.map Prod.snd).sum = level * g.length := by
  intro g
  induction g with
  | nil => simp
  | cons e rest ih =>
      intro hall
      have he : e.2 = level := hall e (List.mem_cons_self _ _)
      have hrest := ih (fun x hx => hall x (List.mem_cons_of_mem _ hx))
      simp [he, hrest, Nat.mul_succ]
      omega

theorem sum_map_snd_filter_pos (l : List (Nat × Nat)) :
    ((l.filter (fun e => decide (0 < e.2))).map Prod.snd).sum =
      (l.map Prod.snd).sum := by
  induction l with
  | nil => rfl
  | cons e rest ih =>
      by_cases h : 0 < e.2
      · simp [List.filter_cons, h, ih]
      · have hz : e.2 = 0 := by omega
        simp [List.filter_cons, h, ih, hz]

/-- Invariant of the layer loop of `build_side_pots`: starting from the full
contributor list and a floor below every remaining contribution, the pot
amounts plus the already-peeled floor account exactly for the remaining
contributions. -/
theorem build_pots_go_sum (ps : List (Nat × PlayerState)) (fuel : Nat) :
    ∀ (l : List (Nat × Nat)) (previous : Nat),
      l.length ≤ fuel →
      l.Pairwise (fun a b => a.2 ≤ b.2) →
      (∀ e ∈ l, previous < e.2) →
      ((build_pots_go ps fuel l (l.map Prod.fst) previous).map SidePot.amount).sum
          + previous * l.length
        = (l.map Prod.snd).sum := by
  induction fuel with
  | zero =>
      intro l previous hlen _ _
      cases l with
      | nil => simp [build_pots_go]
      | cons e rest => simp at hlen
  | succ fuel ih =>
      intro l previous hlen hsort hpos
      cases l with
      | nil => simp [build_pots_go]
      | cons hd rest =>
          obtain ⟨pid, level⟩ := hd
          have hlev : previous < level := hpos (pid, level) (List.mem_cons_self _ _)
          have hrel := (List.pairwise_cons.mp hsort).1
          have hrest_sort := (List.pairwise_cons.mp hsort).2
          rw [build_pots_go]
          simp only []
          rw [if_pos hlev]
          set p : Nat × Nat → Bool := fun e => e.2 == level with hp
          have hsplit := List.takeWhile_append_dropWhile (p := p) (l := rest)
          set tk := rest.takeWhile p with htk
          set dr := rest.dropWhile p with hdr
          -- the erase fold strips exactly the group prefix
          have hmapsplit : (pid, level) :: rest = ((pid, level) :: tk) ++ dr := by
            rw [List.cons_append, hsplit]
          have herase :
              (((pid, level) :: tk).foldl (fun r e => r.erase e.1)
                  (((pid, level) :: rest).map Prod.fst)) = dr.map Prod.fst := by
            have : ((pid, level) :: rest).map Prod.fst =
                (((pid, level) :: tk).map Prod.fst) ++ dr.map Prod.fst := by
              rw [hmapsplit, List.map_append]
            rw [this]
            exact foldl_erase_prefix _ _
          -- every skipped entry sits at the current level
          have htk_level : ∀ e ∈ tk, e.2 = level := by
            intro e he
            have := List.mem_takeWhile_imp he
            simpa [hp] using this
          -- every remaining entry is strictly above the new floor
          have hdr_pos : ∀ e ∈ dr, level < e.2 := by
            cases hdrc : dr with
            | nil => intro e he; simp [hdrc] at he
            | cons f tl =>
                intro e he
                have hf_false : p f = false :=
                  dropWhile_cons_head_false p rest f tl (hdr.symm.trans hdrc)
                have hf_ne : f.2 ≠ level := by simpa [hp] using hf_false
                have hf_mem : f ∈ rest := by
                  have hfd : f ∈ dr := by simp [hdrc]
                  exact (List.dropWhile_sublist p).subset hfd
                have hf_ge : level ≤ f.2 := hrel f hf_mem
                have hf_gt : level < f.2 := lt_of_le_of_ne hf_ge (Ne.symm hf_ne)
                rcases List.mem_cons.mp he with rfl | he2
                · exact hf_gt
                · have hdr_sort : dr.Pairwise (fun a b => a.2 ≤ b.2) :=
                    List.Pairwise.sublist (List.dropWhile_sublist p) hrest_sort
                  rw [hdrc] at hdr_sort
                  have := (List.pairwise_cons.mp hdr_sort).1 e he2
                  exact lt_of_lt_of_le hf_gt this
          have hdr_len : dr.length ≤ fuel := by
            have h1 : dr.length ≤ rest.length := (List.dropWhile_sublist p).length_le
            have h2 : rest.length + 1 ≤ fuel + 1 := by simpa using hlen
            omega
          have hdr_sort : dr.Pairwise (fun a b => a.2 ≤ b.2) :=
            List.Pairwise.sublist (List.dropWhile_sublist p) hrest_sort
          have hih := ih dr level hdr_len hdr_sort hdr_pos
          -- the layer is positive, so a pot is emitted
          have hlayer : 0 < (level - previous) * (((pid, level) :: rest).map Prod.fst).length := by
            have : 0 < level - previous := by omega
            simp [this]
          rw [if_pos hlayer]
          rw [herase]
          simp only [List.map_cons, List.sum_cons, List.map_append, List.sum_append,
            SidePot.amount] at hih ⊢
          -- account the group at this level and close with arithmetic
          have htk_sum : (tk.map Prod.snd).sum = level * tk.length :=
            sum_map_snd_const level tk htk_level
          have hrest_sum : (rest.map Prod.snd).sum =
              level * tk.length + (dr.map Prod.snd).sum := by
            conv_lhs => rw [← hsplit]
            rw [List.map_append, List.sum_append, htk_sum]
          have hlen_split : rest.length = tk.length + dr.length := by
            conv_lhs => rw [← hsplit]
            rw [List.length_append]
          have hmul : (level - previous) * (rest.length + 1) + previous * (rest.length + 1)
              = level * (rest.length + 1) := by
            rw [← Nat.add_mul, Nat.sub_add_cancel (Nat.le_of_lt hlev)]
          have hlev_expand : level * (rest.length + 1)
              = level + level * tk.length + level * dr.length := by
            rw [hlen_split]
            ring
          simp only [List.length_cons, List.length_map, List.map_nil, List.sum_nil,
            Nat.add_zero, Nat.zero_add] at hih ⊢
          set S := (List.map SidePot.amount
            (build_pots_go ps fuel dr (List.map Prod.fst dr) level)).sum with hSdef
          set A := (level - previous) * (rest.length + 1) with hAdef
          set B := previous * (rest.length + 1) with hBdef
          set C := level * (rest.length + 1) with hCdef
          set D := level * tk.length with hDdef
          set E := level * dr.length with hEdef
          clear_value S A B C D E
          clear hSdef hAdef hBdef hCdef hDdef hEdef
          omega

/-- C6: the side-pot amounts built by `build_side_pots` always sum to
`total_committed`, for every committed map and player-state map. -/
theorem side_pots_amount_sum (hs : HandState) :
    ((hs.build_side_pots).map SidePot.amount).sum = hs.total_committed := by
  simp only [HandState.build_side_pots, HandState.total_committed]
  set filt := hs.committed.filter (fun e => decide (0 < e.2)) with hfilt
  have hperm := sortByAmount_perm filt
  by_cases hE : (sortByAmount filt).isEmpty
  · rw [if_pos hE]
    have hnil : filt = [] := by
      have hsortnil : sortByAmount filt = [] := by
        cases hc : sortByAmount filt
        · rfl
        · rw [hc] at hE; simp at hE
      rw [hsortnil] at hperm
      exact hperm.symm.eq_nil
    have : ((filt.map Prod.snd).sum) = (hs.committed.map Prod.snd).sum :=
      hfilt ▸ sum_map_snd_filter_pos hs.committed
    rw [← this, hnil]
    rfl
  · rw [if_neg hE]
    have hsorted := sortByAmount_pairwise filt
    have hpos : ∀ e ∈ sortByAmount filt, 0 < e.2 := by
      intro e he
      have hmemf : e ∈ filt := hperm.mem_iff.mp he
      have := List.of_mem_filter hmemf
      simpa using this
    have h := build_pots_go_sum hs.player_state (sortByAmount filt).length
      (sortByAmount filt) 0 le_rfl hsorted hpos
    simp only [Nat.zero_mul, Nat.add_zero] at h
    rw [h]
    have h1 : ((sortByAmount filt).map Prod.snd).sum = (filt.map Prod.snd).sum :=
      (hperm.map Prod.snd).sum_eq
    rw [h1, hfilt]
    exact sum_map_snd_filter_pos hs.committed

/-! ### C7 — split pots and the odd-chip order -/

/-- Seven-card evaluator fixture: ranks a hand 1 when it leads with player
2's first hole card and 0 otherwise, so players 1 and 3 tie ahead of
player 2. -/
def rankDemo : List Card → Nat :=
  fun cs => if cs.headD (Card.mk 0 0) = Card.mk 1 1 then 1 else 0

/-- River hand with three live participants, button 1, five chips committed
by each, giving a single 15-chip pot. -/
def hsDemo : HandState :=
  { phase := .river,
    button := 1,
    participants := [1, 2, 3],
    player_state := [(1, .active), (2, .active), (3, .active)],
    player_holes :=
      [(1, [Card.mk 0 1, Card.mk 0 2]), (2, [Card.mk 1 1, Card.mk 1 2]),
       (3, [Card.mk 2 1, Card.mk 2 2])],
    table_cards := [Card.mk 5 0, Card.mk 6 0, Card.mk 7 0, Card.mk 8 0, Card.mk 9 0],
    active_bets := [(1, 5), (2, 5), (3, 5)],
    committed := [(1, 5), (2, 5), (3, 5)],
    previous_bet := 5,
    min_raise := 10,
    turn_queue := [] }

/-- Modelled from the spec claim's wording, for comparison only: odd chips
assigned in clockwise order starting from the seat closest AFTER the
button, i.e. over the participants rotated left by one. -/
def award_shares_after_button (participants winners : List Nat)
    (amount : Nat) : List (Nat × Nat) :=
  let rotated := participants.drop 1 ++ participants.take 1
  let ordered := rotated.filter (fun id => winners.contains id)
  award_shares (amount / ordered.length) (amount % ordered.length) ordered

/-- C7 (counterexample): with button 1 among the tied winners {1, 3} of a
15-chip pot, the code pays the button 8 chips (the odd chip goes to the
button, first of `participants`), whereas the claimed order starting from
the seat after the button pays player 1 only 7; the emitted events contain
no `WonPot 1 7`. -/
theorem odd_chip_order_counterexample :
    (Table.distribute_side_pots rankDemo {} hsDemo []).2 =
      [Event.WonPot 1 8, Event.WonPot 3 7] ∧
    lookupA (award_shares_after_button hsDemo.participants
      (select_winners rankDemo hsDemo [1, 2, 3]) 15) 1 = some 7 ∧
    Event.WonPot 1 7 ∉ (Table.distribute_side_pots rankDemo {} hsDemo []).2 := by
  exact ⟨rfl, rfl, by decide⟩

/-- C7 (amended): each tied winner receives the pot divided by the number of
tied winners, and the odd chips are assigned one at a time in clockwise
participants order starting AT the button (the button is first); concretely,
a single pot with eligible ties is paid out by `award_shares` over the
winners filtered from `participants` in order, and `award_shares` gives the
i-th winner in that order `share + 1` exactly when `i < remainder`. -/
theorem distribute_tied_pot_split (rank7 : List Card → Nat) (pm : PlayerManager)
    (hs : HandState) (events : List Event) (amount : Nat) (eligible : List Nat)
    (hpots : hs.build_side_pots = [SidePot.mk amount eligible])
    (hne : eligible.isEmpty = false)
    (hwne : (select_winners rank7 hs eligible).isEmpty = false) :
    (Table.distribute_side_pots rank7 pm hs events =
      (award_shares
          (amount / (hs.participants.filter
            (fun id => (select_winners rank7 hs eligible).contains id)).length)
          (amount % (hs.participants.filter
            (fun id => (select_winners rank7 hs eligible).contains id)).length)
          (hs.participants.filter
            (fun id => (select_winners rank7 hs eligible).contains id))).foldl
        (fun acc e => Table.award_chips acc.1 e.1 e.2 acc.2) (pm, events)) ∧
    (∀ (share rem : Nat) (ordered : List Nat) (i : Nat), i < ordered.length →
        (award_shares share rem ordered).getD i (0, 0) =
          (ordered.getD i 0, if i < rem then share + 1 else share)) := by
  constructor
  · rw [Table.distribute_side_pots, hpots]
    simp only [List.foldl_cons, List.foldl_nil, hne, hwne, Bool.false_eq_true, if_false]
  · intro share rem ordered
    induction ordered generalizing rem with
    | nil => intro i hi; simp at hi
    | cons id rest ih =>
        intro i hi
        rw [award_shares]
        by_cases hrem : 0 < rem
        · rw [if_pos hrem]
          cases i with
          | zero => simp [hrem]
          | succ j =>
              have hj : j < rest.length := by simpa using hi
              rw [List.getD_cons_succ, List.getD_cons_succ, ih (rem - 1) j hj]
              have hiff : (j + 1 < rem) = (j < rem - 1) := by
                apply propext
                constructor <;> omega
              simp only [hiff]
        · rw [if_neg hrem]
          have hrem0 : rem = 0 := by omega
          cases i with
          | zero => simp [hrem0]
          | succ j =>
              have hj : j < rest.length := by simpa using hi
              rw [List.getD_cons_succ, List.getD_cons_succ, ih rem j hj, hrem0]
              simp

/-- Witness for `distribute_tied_pot_split` at the three-player tie. -/
theorem distribute_tied_pot_split_witness :
    (Table.distribute_side_pots rankDemo {} hsDemo [] =
      (award_shares (15 / 2) (15 % 2) [1, 3]).foldl
        (fun acc e => Table.award_chips acc.1 e.1 e.2 acc.2) ({}, [])) ∧
    (award_shares 7 1 [1, 3]).getD 0 (0, 0) = (1, if 0 < 1 then 7 + 1 else 7) := by
  have h := distribute_tied_pot_split rankDemo {} hsDemo [] 15 [1, 2, 3] rfl rfl rfl
  exact ⟨h.1.trans (by rfl), h.2 7 1 [1, 3] 0 (by decide)⟩

/-! ### C10 — error results do not mutate the hand bookkeeping -/

/-- A rejected bet leaves the manager and every hand map untouched, provided
the actor has a street-bet entry and a positive purse (as every active
player does). -/
theorem handle_bet_error_state (pm : PlayerManager) (hs : HandState)
    (id amount v : Nat) (pm1 : PlayerManager) (hs1 : HandState) (e : GameError)
    (hv : lookupA hs.active_bets id = some v) (hchips : 0 < pm.get_chips id)
    (h : Table.handle_bet pm hs id amount = (pm1, hs1, .error e)) :
    pm1 = pm ∧ hs1.committed = hs.committed ∧ hs1.active_bets = hs.active_bets ∧
      hs1.player_state = hs.player_state ∧ hs1.turn_queue = hs.turn_queue := by
  rw [Table.handle_bet, getInsertA_present _ _ _ _ hv] at h
  simp only [] at h
  split_ifs at h with hcl h1 h2 h3 <;>
    first
    | (have hpm : pm = pm1 := congrArg Prod.fst h
       have hhs : _ = hs1 := congrArg (fun x => x.2.1) h
       subst hpm
       subst hhs
       exact ⟨rfl, rfl, rfl, rfl, rfl⟩)
    | simp_all

/-- The handlers never change the phase. -/
theorem run_handler_phase (pm : PlayerManager) (hs : HandState) (a : Action) :
    (Table.run_handler pm hs a).2.1.phase = hs.phase := by
  cases a <;>
    simp only [Table.run_handler, Table.handle_bet, Table.handle_fold,
      Table.handle_timeout] <;>
    (repeat' split) <;> rfl

/-- Dispatcher-level version of `handle_bet_error_state`: any handler error
leaves the manager and the hand maps untouched. -/
theorem run_handler_error_state (a : Action) (pm : PlayerManager) (hs : HandState)
    (v : Nat) (pm1 : PlayerManager) (hs1 : HandState) (e : GameError)
    (hv : lookupA hs.active_bets a.actionId = some v)
    (hchips : 0 < pm.get_chips a.actionId)
    (h : Table.run_handler pm hs a = (pm1, hs1, .error e)) :
    pm1 = pm ∧ hs1.committed = hs.committed ∧ hs1.active_bets = hs.active_bets ∧
      hs1.player_state = hs.player_state ∧ hs1.turn_queue = hs.turn_queue := by
  cases a with
  | Bet id amount =>
      exact handle_bet_error_state pm hs id amount v pm1 hs1 e hv hchips h
  | Fold id =>
      rw [Table.run_handler, Table.handle_fold] at h
      exact absurd (congrArg (fun x => x.2.2) h) (by simp)
  | Timeout id =>
      simp only [Action.actionId] at hv hchips
      rw [Table.run_handler, Table.handle_timeout,
        getInsertA_present _ _ _ _ hv] at h
      simp only [] at h
      split_ifs at h with hc
      · rw [Table.handle_fold] at h
        exact absurd (congrArg (fun x => x.2.2) h) (by simp)
      · exact handle_bet_error_state pm hs id 0 v pm1 hs1 e hv hchips h

/-- A street advance from a live non-river phase always succeeds. -/
theorem handle_new_street_ok (hs : HandState)
    (hph : hs.phase = .preflop ∨ hs.phase = .flop ∨ hs.phase = .turn) :
    ∃ evs, (Table.handle_new_street hs).2 = .ok evs := by
  rcases hph with hp | hp | hp <;>
    · rw [Table.handle_new_street]
      simp only [hp]
      exact ⟨_, rfl⟩

/-- Post-action resolution never produces an error while the phase is live. -/
theorem resolve_ok (rank7 : List Card → Nat) (t : Table) (resp : List Event)
    (hph : ∀ hs, t.hand_state = some hs →
        hs.phase ≠ .showdown ∧ hs.phase ≠ .holding) :
    ∃ evs, (Table.resolve rank7 t resp).2 = .ok evs := by
  rw [Table.resolve]
  cases hhs : t.hand_state with
  | none => exact ⟨resp, rfl⟩
  | some hs =>
      simp only []
      by_cases h1 : hs.prune_turn_queue.active_players_in_hand.length = 1
      · rw [if_pos h1]
        exact ⟨_, rfl⟩
      · rw [if_neg h1]
        by_cases h2 : hs.prune_turn_queue.turn_queue.isEmpty
        · rw [if_pos h2]
          by_cases h3 : ¬ hs.prune_turn_queue.active_players_in_hand.any
              (fun id => isActiveIn hs.prune_turn_queue.player_state id)
          · rw [if_pos h3]
            exact ⟨_, rfl⟩
          · rw [if_neg h3]
            by_cases h4 : hs.prune_turn_queue.phase = .river
            · rw [if_pos h4]
              exact ⟨_, rfl⟩
            · rw [if_neg h4]
              have hlive := hph hs hhs
              have hph2 : hs.prune_turn_queue.phase = .preflop ∨
                  hs.prune_turn_queue.phase = .flop ∨
                  hs.prune_turn_queue.phase = .turn := by
                rw [prune_phase] at h4 ⊢
                cases hc : hs.phase <;> simp_all
              obtain ⟨evs2, hok⟩ := handle_new_street_ok hs.prune_turn_queue hph2
              rcases hst : Table.handle_new_street hs.prune_turn_queue with ⟨hs2, adv⟩
              rw [hst] at hok
              simp only at hok
              subst hok
              exact ⟨_, rfl⟩
        · rw [if_neg h2]
          by_cases h5 : hs.prune_turn_queue.prune_turn_queue.turn_queue.isEmpty
          · rw [if_pos h5]
            exact ⟨resp, rfl⟩
          · rw [if_neg h5]
            exact ⟨_, rfl⟩

/-- The front of a pruned turn queue is an active player. -/
theorem prune_front_active (hs : HandState) (x : Nat) (xs : List Nat)
    (h : hs.prune_turn_queue.turn_queue = x :: xs) :
    isActiveIn hs.player_state x := by
  rw [HandState.prune_turn_queue] at h
  simp only [] at h
  have := dropWhile_cons_head_false (fun id => !isActiveIn hs.player_state id)
    hs.turn_queue x xs h
  simpa using this

/-- C10: under the standing invariants of a live hand — every active player
has a street-bet entry and a positive purse, and the phase is one of the
four streets — an error from `on_action` leaves every purse, the committed
map, the street-bet map and the player-state map unchanged; the only state
that may change is the turn queue, by pruning non-active entries from its
front. -/
theorem on_action_error_preserves_state (rank7 : List Card → Nat) (t : Table)
    (a : Action) (t1 : Table) (e : GameError)
    (hinv : ∀ hs, t.hand_state = some hs → ∀ id, isActiveIn hs.player_state id →
        (lookupA hs.active_bets id).isSome ∧ 0 < t.players.get_chips id)
    (hphase : ∀ hs, t.hand_state = some hs →
        hs.phase ≠ .showdown ∧ hs.phase ≠ .holding)
    (herr : Table.on_action rank7 t a = (t1, .error e)) :
    t1.players = t.players ∧
    (match t.hand_state, t1.hand_state with
     | none, none => True
     | some hs, some hs1 =>
         hs1.committed = hs.committed ∧ hs1.active_bets = hs.active_bets ∧
         hs1.player_state = hs.player_state ∧
         (hs1.turn_queue = hs.turn_queue ∨
          hs1.turn_queue = hs.turn_queue.dropWhile
            (fun id => !isActiveIn hs.player_state id))
     | _, _ => False)
    := by
  rw [Table.on_action] at herr
  cases hhs : t.hand_state with
  | none =>
      rw [hhs] at herr
      have h1 : t = t1 := congrArg Prod.fst herr
      subst h1
      simp [hhs]
  | some hs0 =>
      rw [hhs] at herr
      simp only [] at herr
      by_cases hsat : t.players.is_sat a.actionId
      · rw [if_neg (by simpa using hsat)] at herr
        by_cases hq : hs0.prune_turn_queue.turn_queue.isEmpty
        · rw [if_pos hq] at herr
          have h1 : _ = t1 := congrArg Prod.fst herr
          subst h1
          refine ⟨rfl, ?_⟩
          show hs0.prune_turn_queue.committed = hs0.committed ∧
            hs0.prune_turn_queue.active_bets = hs0.active_bets ∧
            hs0.prune_turn_queue.player_state = hs0.player_state ∧
            (hs0.prune_turn_queue.turn_queue = hs0.turn_queue ∨
             hs0.prune_turn_queue.turn_queue = hs0.turn_queue.dropWhile
               (fun id => !isActiveIn hs0.player_state id))
          exact ⟨rfl, rfl, rfl, Or.inr rfl⟩
        · rw [if_neg hq] at herr
          by_cases hfr : a.actionId = hs0.prune_turn_queue.turn_queue.headD 0
          · rw [if_neg (by simpa using hfr)] at herr
            -- the front of the pruned queue is active, so the invariants applyomm
            obtain ⟨x, xs, hcons⟩ : ∃ x xs, hs0.prune_turn_queue.turn_queue = x :: xs := by
              cases hc : hs0.prune_turn_queue.turn_queue
              · rw [hc] at hq; simp at hq
              · exact ⟨_, _, rfl⟩
            have hxact : isActiveIn hs0.player_state x := prune_front_active hs0 x xs hcons
            have hid : a.actionId = x := by rw [hfr, hcons]; rfl
            have hx := hinv hs0 hhs x hxact
            obtain ⟨v, hv⟩ := Option.isSome_iff_exists.mp hx.1
            rcases hr : Table.run_handler t.players hs0.prune_turn_queue a with ⟨pm1, hs1, res⟩
            rw [hr] at herr
            cases res with
            | error e2 =>
                simp only [] at herr
                have h1 : _ = t1 := congrArg Prod.fst herr
                subst h1
                have hvp : lookupA hs0.prune_turn_queue.active_bets a.actionId = some v := by
                  rw [prune_active_bets, hid]; exact hv
                have hcp : 0 < t.players.get_chips a.actionId := by rw [hid]; exact hx.2
                obtain ⟨hpm, hcom, hbets, hps, htq⟩ :=
                  run_handler_error_state a t.players hs0.prune_turn_queue v pm1 hs1 e2
                    hvp hcp hr
                refine ⟨hpm, ?_⟩
                show hs1.committed = hs0.committed ∧
                  hs1.active_bets = hs0.active_bets ∧
                  hs1.player_state = hs0.player_state ∧
                  (hs1.turn_queue = hs0.turn_queue ∨
                   hs1.turn_queue = hs0.turn_queue.dropWhile
                     (fun id => !isActiveIn hs0.player_state id))
                exact ⟨hcom.trans (prune_committed hs0),
                  hbets.trans (prune_active_bets hs0),
                  hps.trans (prune_player_state hs0),
                  Or.inr (htq.trans rfl)⟩
            | ok resp =>
                simp only [] at herr
                have hph2 : ∀ hsx,
                    ({ t with players := pm1, hand_state := some hs1 } : Table).hand_state
                      = some hsx →
                    hsx.phase ≠ .showdown ∧ hsx.phase ≠ .holding := by
                  intro hsx hx2
                  simp only [] at hx2
                  injection hx2 with hx2
                  subst hx2
                  have : hs1.phase = hs0.phase := by
                    have := run_handler_phase t.players hs0.prune_turn_queue a
                    rw [hr] at this
                    simpa using this
                  rw [this]
                  exact hphase hs0 hhs
                obtain ⟨evs, hok⟩ := resolve_ok rank7
                  { t with players := pm1, hand_state := some hs1 } resp hph2
                rw [herr] at hok
                simp at hok
          · rw [if_pos (by simpa using hfr)] at herr
            have h1 : _ = t1 := congrArg Prod.fst herr
            subst h1
            refine ⟨rfl, ?_⟩
            show hs0.prune_turn_queue.committed = hs0.committed ∧
              hs0.prune_turn_queue.active_bets = hs0.active_bets ∧
              hs0.prune_turn_queue.player_state = hs0.player_state ∧
              (hs0.prune_turn_queue.turn_queue = hs0.turn_queue ∨
               hs0.prune_turn_queue.turn_queue = hs0.turn_queue.dropWhile
                 (fun id => !isActiveIn hs0.player_state id))
            exact ⟨rfl, rfl, rfl, Or.inr rfl⟩
      · rw [if_pos (by simpa using hsat)] at herr
        have h1 : t = t1 := congrArg Prod.fst herr
        subst h1
        refine ⟨rfl, ?_⟩
        rw [hhs]
        show hs0.committed = hs0.committed ∧ hs0.active_bets = hs0.active_bets ∧
          hs0.player_state = hs0.player_state ∧
          (hs0.turn_queue = hs0.turn_queue ∨
           hs0.turn_queue = hs0.turn_queue.dropWhile
             (fun id => !isActiveIn hs0.player_state id))
        exact ⟨rfl, rfl, rfl, Or.inl rfl⟩

/-- Witness for `on_action_error_preserves_state`: the heads-up big blind
acts out of turn and the rejection leaves the whole hand state intact. -/
theorem on_action_error_witness :
    (Table.on_action rank0 headsUpDealt (Action.Bet 2 10)).1.players =
      headsUpDealt.players ∧
    (match headsUpDealt.hand_state,
        (Table.on_action rank0 headsUpDealt (Action.Bet 2 10)).1.hand_state with
     | none, none => True
     | some hs, some hs1 =>
         hs1.committed = hs.committed ∧ hs1.active_bets = hs.active_bets ∧
         hs1.player_state = hs.player_state ∧
         (hs1.turn_queue = hs.turn_queue ∨
          hs1.turn_queue = hs.turn_queue.dropWhile
            (fun id => !isActiveIn hs.player_state id))
     | _, _ => False) := by
  have hps : headsUpHS.player_state =
      [(1, PlayerState.active), (2, PlayerState.active)] := rfl
  refine on_action_error_preserves_state rank0 headsUpDealt (Action.Bet 2 10) _
    .out_of_turn ?_ ?_ rfl
  · intro hs h id hact
    have h2 : some headsUpHS = some hs := h
    injection h2 with h2
    subst h2
    rw [hps] at hact
    simp only [lookupA, isActiveIn] at hact
    split_ifs at hact with ha hb
    · subst ha
      exact ⟨by decide, by decide⟩
    · subst hb
      exact ⟨by decide, by decide⟩
  · intro hs h
    have h2 : some headsUpHS = some hs := h
    injection h2 with h2
    subst h2
    exact ⟨by decide, by decide⟩

end PokerEpoll
